import Mathlib

/-
  Shallow embedding of the EventManager publish/subscribe registry
  (event_manager.h).

  The C++ registry stores, per event name, a type-erased container
  (BaseFunctionVector) holding a vector of (size_t id, std::function)
  pairs for one template-argument signature.  We model:

  - the template-argument pack Args... as an abstract signature tag of
    type Sig with decidable equality; each container records the tag it
    was created with;
  - the unchecked static_cast to DerivedFunctionVector<Args...> as a
    check of that tag: operations return Option, and the none result
    marks the signature-mismatch case that is undefined behavior in the
    C++ source (the spec mandates a checked cast for safe targets);
  - std::function values as opaque callback values of type κ whose
    behavior is given by a parameter run : κ → A → Except E Unit, where
    A is the argument tuple type and E the exception type; a raising
    callback returns Except.error;
  - std::map<std::string, shared_ptr<BaseFunctionVector>> as an
    association list with unique keys; every access in the source goes
    through map::find, so the position of an inserted key is not
    observable and new keys are appended;
  - emitEvent as a function returning the (unmodified) map together
    with the trace of callback invocations, each trace element being
    the invoked entry paired with the arguments it received.
-/

namespace EventManager

/-- One registered callback: the pair (size_t id, function) stored in a
FunctionVector (FunctionIdPair in the source). -/
structure CallbackEntry (κ : Type) where
  id : Nat
  func : κ
  deriving DecidableEq, Repr

/-- A DerivedFunctionVector: the signature tag it was instantiated with
and its ordered vector of callback entries. -/
structure Container (Sig κ : Type) where
  sig : Sig
  functions : List (CallbackEntry κ)
  deriving DecidableEq, Repr

/-- The functionsMap: event name to container. -/
abbrev Registry (Sig κ : Type) := List (String × Container Sig κ)

/-- map::find on the functionsMap. -/
def findContainer {Sig κ : Type} : Registry Sig κ → String → Option (Container Sig κ)
  | [], _ => none
  | (n, c) :: rest, name => if n = name then some c else findContainer rest name

/-- In-place update of the container stored under an existing key
(mutation through the iterator returned by map::find). -/
def setContainer {Sig κ : Type} : Registry Sig κ → String → Container Sig κ → Registry Sig κ
  | [], _, _ => []
  | (n, c) :: rest, name, c' =>
      if n = name then (n, c') :: rest else (n, c) :: setContainer rest name c'

/-- EventManager::on.  If a container exists for the name, the new id is
the current vector size and the entry is appended; otherwise a fresh
container with the single entry (0, func) is inserted and 0 returned.
The none result is the signature-mismatch downcast (UB in the source). -/
def onEvent {Sig κ : Type} [DecidableEq Sig] (m : Registry Sig κ) (name : String) (s : Sig)
    (f : κ) : Option (Registry Sig κ × Nat) :=
  match findContainer m name with
  | some c =>
      if c.sig = s then
        some (setContainer m name ⟨c.sig, c.functions ++ [⟨c.functions.length, f⟩]⟩,
              c.functions.length)
      else none
  | none => some (m ++ [(name, ⟨s, [⟨0, f⟩]⟩)], 0)

/-- EventManager::off.  If the name is unknown, nothing happens; else
every entry whose id matches is erased (std::remove_if erases all
matches), the map key itself staying in place. -/
def off {Sig κ : Type} [DecidableEq Sig] (m : Registry Sig κ) (name : String) (s : Sig)
    (idr : Nat) : Option (Registry Sig κ) :=
  match findContainer m name with
  | some c =>
      if c.sig = s then
        some (setContainer m name ⟨c.sig, c.functions.filter (fun e => ¬ e.id = idr)⟩)
      else none
  | none => some m

/-- The loop body of emitEvent: invoke the stored callbacks in vector
order, recording each invocation with the arguments it received; a
raising callback ends the loop and its exception escapes. -/
def runCallbacks {κ A E : Type} (run : κ → A → Except E Unit) :
    List (CallbackEntry κ) → A → List (CallbackEntry κ × A) × Option E
  | [], _ => ([], none)
  | e :: rest, a =>
      match run e.func a with
      | Except.ok _ =>
          let r := runCallbacks run rest a
          ((e, a) :: r.1, r.2)
      | Except.error ex => ([(e, a)], some ex)

/-- EventManager::emitEvent.  Unknown names are a silent no-op; else
every stored callback is invoked in order with the given arguments.
The functionsMap is returned unchanged: the source loop only calls the
stored functions and never mutates the map. -/
def emitEvent {Sig κ A E : Type} [DecidableEq Sig] (run : κ → A → Except E Unit)
    (m : Registry Sig κ) (name : String) (s : Sig) (a : A) :
    Option (Registry Sig κ × List (CallbackEntry κ × A) × Option E) :=
  match findContainer m name with
  | some c => if c.sig = s then some (m, runCallbacks run c.functions a) else none
  | none => some (m, [], none)

/-- A sequence of registrations under one event name and signature. -/
def onAll {Sig κ : Type} [DecidableEq Sig] (m : Registry Sig κ) (name : String) (s : Sig) :
    List κ → Option (Registry Sig κ)
  | [] => some m
  | f :: fs =>
      match onEvent m name s f with
      | some (m', _) => onAll m' name s fs
      | none => none

/-- The entry list produced by registering the callbacks fs in order,
ids starting at i. -/
def mkEntries {κ : Type} : Nat → List κ → List (CallbackEntry κ)
  | _, [] => []
  | i, f :: fs => ⟨i, f⟩ :: mkEntries (i + 1) fs

/-- The operation sequence on(n, f10); on(n, f11); off(n, 0); on(n, f12)
under one name and signature, starting from the empty registry.
Callbacks are numbered 10, 11, 12; the signature tag is true. -/
def idCollisionScenario : Option (Registry Bool Nat) :=
  Option.bind (onEvent ([] : Registry Bool Nat) "n" true 10) (fun p1 =>
  Option.bind (onEvent p1.1 "n" true 11) (fun p2 =>
  Option.bind (off p2.1 "n" true 0) (fun m3 =>
  Option.map (fun p4 => p4.1) (onEvent m3 "n" true 12))))

section Lemmas

variable {Sig κ A E : Type}

theorem findContainer_setContainer_self {m : Registry Sig κ} {name : String}
    {c₀ : Container Sig κ} (c : Container Sig κ) (h : findContainer m name = some c₀) :
    findContainer (setContainer m name c) name = some c := by
  induction m with
  | nil => simp [findContainer] at h
  | cons p rest ih =>
      obtain ⟨n, c'⟩ := p
      by_cases hn : n = name
      · simp [findContainer, setContainer, hn]
      · simp [findContainer, setContainer, hn] at h ⊢
        exact ih h

theorem findContainer_setContainer_ne {m : Registry Sig κ} {name b : String}
    (c : Container Sig κ) (hne : ¬ name = b) :
    findContainer (setContainer m name c) b = findContainer m b := by
  induction m with
  | nil => simp [setContainer]
  | cons p rest ih =>
      obtain ⟨n, c'⟩ := p
      by_cases hn : n = name
      · subst hn
        simp [findContainer, setContainer, hne]
      · simp [findContainer, setContainer, hn, ih]

theorem setContainer_setContainer {m : Registry Sig κ} {name : String}
    (c₁ c₂ : Container Sig κ) :
    setContainer (setContainer m name c₁) name c₂ = setContainer m name c₂ := by
  induction m with
  | nil => simp [setContainer]
  | cons p rest ih =>
      obtain ⟨n, c'⟩ := p
      by_cases hn : n = name
      · simp [setContainer, hn]
      · simp [setContainer, hn, ih]

theorem setContainer_self {m : Registry Sig κ} {name : String} {c : Container Sig κ}
    (h : findContainer m name = some c) : setContainer m name c = m := by
  induction m with
  | nil => simp [findContainer] at h
  | cons p rest ih =>
      obtain ⟨n, c'⟩ := p
      by_cases hn : n = name
      · simp [findContainer, hn] at h
        simp [setContainer, hn, h]
      · simp [findContainer, hn] at h
        simp [setContainer, hn, ih h]

theorem findContainer_append_of_none {m l : Registry Sig κ} {name : String}
    (h : findContainer m name = none) :
    findContainer (m ++ l) name = findContainer l name := by
  induction m with
  | nil => simp
  | cons p rest ih =>
      obtain ⟨n, c'⟩ := p
      by_cases hn : n = name
      · simp [findContainer, hn] at h
      · simp [findContainer, hn] at h ⊢
        exact ih h

theorem findContainer_append_singleton_ne {m : Registry Sig κ} {name b : String}
    (c : Container Sig κ) (hne : ¬ name = b) :
    findContainer (m ++ [(name, c)]) b = findContainer m b := by
  induction m with
  | nil => simp [findContainer, hne]
  | cons p rest ih =>
      obtain ⟨n, c'⟩ := p
      by_cases hn : n = b
      · simp [findContainer, hn]
      · simp [findContainer, hn, ih]

theorem mkEntries_map_func (i : Nat) (fs : List κ) :
    (mkEntries i fs).map CallbackEntry.func = fs := by
  induction fs generalizing i with
  | nil => simp [mkEntries]
  | cons f fs ih => simp [mkEntries, ih]

theorem mkEntries_mem_func {i : Nat} {fs : List κ} {e : CallbackEntry κ}
    (h : e ∈ mkEntries i fs) : e.func ∈ fs := by
  induction fs generalizing i with
  | nil => simp [mkEntries] at h
  | cons f fs ih =>
      simp only [mkEntries, List.mem_cons] at h
      rcases h with h | h
      · subst h; simp
      · exact List.mem_cons_of_mem _ (ih h)

theorem mkEntries_append (i : Nat) (fs : List κ) (gs : List κ) :
    mkEntries i (fs ++ gs) = mkEntries i fs ++ mkEntries (i + fs.length) gs := by
  induction fs generalizing i with
  | nil => simp [mkEntries]
  | cons f fs ih =>
      simp only [List.cons_append, mkEntries, List.append_eq, ih, List.length_cons]
      have harith : i + 1 + fs.length = i + (fs.length + 1) := by omega
      rw [harith]

theorem runCallbacks_all_ok {run : κ → A → Except E Unit} {es : List (CallbackEntry κ)}
    {a : A} (h : ∀ e ∈ es, run e.func a = Except.ok ()) :
    runCallbacks run es a = (es.map (fun e => (e, a)), none) := by
  induction es with
  | nil => simp [runCallbacks]
  | cons e es ih =>
      have he : run e.func a = Except.ok () := h e (by simp)
      simp [runCallbacks, he, ih (fun e' he' => h e' (List.mem_cons_of_mem _ he'))]

theorem runCallbacks_mem {run : κ → A → Except E Unit} {es : List (CallbackEntry κ)}
    {a : A} : ∀ p ∈ (runCallbacks run es a).1, p.1 ∈ es ∧ p.2 = a := by
  induction es with
  | nil => simp [runCallbacks]
  | cons e es ih =>
      intro p hp
      cases hrun : run e.func a with
      | ok u =>
          simp only [runCallbacks, hrun, List.mem_cons] at hp
          rcases hp with hp | hp
          · subst hp; simp
          · obtain ⟨h1, h2⟩ := ih p hp
            exact ⟨List.mem_cons_of_mem _ h1, h2⟩
      | error ex =>
          simp only [runCallbacks, hrun, List.mem_singleton] at hp
          subst hp; simp

theorem runCallbacks_error {run : κ → A → Except E Unit} {es₁ es₂ : List (CallbackEntry κ)}
    {e : CallbackEntry κ} {a : A} {ex : E}
    (h1 : ∀ e' ∈ es₁, run e'.func a = Except.ok ())
    (he : run e.func a = Except.error ex) :
    runCallbacks run (es₁ ++ e :: es₂) a =
      (es₁.map (fun e' => (e', a)) ++ [(e, a)], some ex) := by
  induction es₁ with
  | nil => simp [runCallbacks, he]
  | cons e' es₁ ih =>
      have he' : run e'.func a = Except.ok () := h1 e' (by simp)
      simp [runCallbacks, he', ih (fun x hx => h1 x (List.mem_cons_of_mem _ hx))]

theorem onEvent_present [DecidableEq Sig] {m : Registry Sig κ} {name : String} {s : Sig}
    {es : List (CallbackEntry κ)} (h : findContainer m name = some ⟨s, es⟩) (f : κ) :
    onEvent m name s f =
      some (setContainer m name ⟨s, es ++ [⟨es.length, f⟩]⟩, es.length) := by
  simp [onEvent, h]

theorem off_present [DecidableEq Sig] {m : Registry Sig κ} {name : String} {s : Sig}
    {es : List (CallbackEntry κ)} (h : findContainer m name = some ⟨s, es⟩) (idr : Nat) :
    off m name s idr =
      some (setContainer m name ⟨s, es.filter (fun e => ¬ e.id = idr)⟩) := by
  simp [off, h]

theorem onAll_present [DecidableEq Sig] {m : Registry Sig κ} {name : String} {s : Sig}
    {es : List (CallbackEntry κ)} (h : findContainer m name = some ⟨s, es⟩)
    (fs : List κ) :
    onAll m name s fs = some (setContainer m name ⟨s, es ++ mkEntries es.length fs⟩) := by
  induction fs generalizing m es with
  | nil =>
      simp only [onAll, mkEntries, List.append_nil]
      rw [setContainer_self h]
  | cons f fs ih =>
      simp only [onAll, onEvent_present h f]
      rw [ih (findContainer_setContainer_self _ h), setContainer_setContainer]
      simp [mkEntries, List.append_assoc]

theorem emitEvent_present [DecidableEq Sig] (run : κ → A → Except E Unit)
    {m : Registry Sig κ} {name : String} {s : Sig} {es : List (CallbackEntry κ)}
    (h : findContainer m name = some ⟨s, es⟩) (a : A) :
    emitEvent run m name s a = some (m, runCallbacks run es a) := by
  simp [emitEvent, h]

theorem onAll_from_empty [DecidableEq Sig] (name : String) (s : Sig) (f : κ) (fs : List κ) :
    onAll ([] : Registry Sig κ) name s (f :: fs) =
      some [(name, ⟨s, mkEntries 0 (f :: fs)⟩)] := by
  have hstep : onEvent ([] : Registry Sig κ) name s f =
      some ([(name, ⟨s, [⟨0, f⟩]⟩)], 0) := by
    simp [onEvent, findContainer]
  have hfind : findContainer [(name, (⟨s, [⟨0, f⟩]⟩ : Container Sig κ))] name =
      some ⟨s, [⟨0, f⟩]⟩ := by
    simp [findContainer]
  simp only [onAll, hstep]
  rw [onAll_present hfind]
  simp [setContainer, mkEntries]

end Lemmas

section Claims

variable {Sig κ A E : Type}

/-- C1: for every registry state built from a sequence of registrations
under one event name with one signature, emitting that name invokes
every still-registered callback exactly once, in registration order,
each receiving the emitted arguments (no callback raising). -/
theorem emit_invokes_registered_in_order [DecidableEq Sig] (run : κ → A → Except E Unit)
    (name : String) (s : Sig) (fs : List κ) (m : Registry Sig κ) (a : A)
    (hm : onAll ([] : Registry Sig κ) name s fs = some m)
    (hok : ∀ f ∈ fs, run f a = Except.ok ()) :
    emitEvent run m name s a =
      some (m, (mkEntries 0 fs).map (fun e => (e, a)), none) ∧
    ((mkEntries 0 fs).map (fun e => (e, a))).map (fun p => p.1.func) = fs := by
  cases fs with
  | nil =>
      simp only [onAll, Option.some.injEq] at hm
      subst hm
      simp [emitEvent, findContainer, mkEntries]
  | cons f fs =>
      rw [onAll_from_empty] at hm
      have hm' : m = [(name, ⟨s, mkEntries 0 (f :: fs)⟩)] := by
        exact (Option.some.injEq _ _).mp hm.symm
      subst hm'
      have hfind : findContainer [(name, (⟨s, mkEntries 0 (f :: fs)⟩ : Container Sig κ))]
          name = some ⟨s, mkEntries 0 (f :: fs)⟩ := by
        simp [findContainer]
      constructor
      · have hrun : runCallbacks run (mkEntries 0 (f :: fs)) a =
            ((mkEntries 0 (f :: fs)).map (fun e => (e, a)), none) :=
          runCallbacks_all_ok (fun e he => hok e.func (mkEntries_mem_func he))
        simp [emitEvent, hfind, hrun]
      · simpa [List.map_map, Function.comp] using mkEntries_map_func 0 (f :: fs)

/-- Witness for C1 at a concrete three-callback registry. -/
theorem emit_invokes_registered_in_order_witness :
    emitEvent (fun (_ : Nat) (_ : Nat) => (Except.ok () : Except Unit Unit))
      [("evt", ⟨true, mkEntries 0 [10, 11, 12]⟩)] "evt" true 5 =
      some ([("evt", ⟨true, mkEntries 0 [10, 11, 12]⟩)],
        (mkEntries 0 [10, 11, 12]).map (fun e => (e, 5)), none) ∧
    ((mkEntries 0 [10, 11, 12]).map (fun e => (e, 5))).map (fun p => p.1.func) =
      [10, 11, 12] :=
  emit_invokes_registered_in_order _ "evt" true [10, 11, 12] _ 5 rfl (fun _ _ => rfl)

/-- C2 (violated by the code): after on, on, off(0), on under one name,
the container simultaneously holds two live entries both carrying
identifier 1: identifiers are not unique among currently registered
callbacks.  The final registry is computed in full. -/
theorem identifier_collision_after_off :
    idCollisionScenario = some [("n", ⟨true, [⟨1, 11⟩, ⟨1, 12⟩]⟩)] ∧
    (idCollisionScenario.bind (fun m => findContainer m "n")).map
      (fun c => c.functions.map (fun e => (e.id, e.func))) = some [(1, 11), (1, 12)] := by
  constructor <;> rfl

/-- C4: a registration on an existing container returns the number of
entries currently in the container and appends the entry under that id;
a registration for an unknown name returns 0 and creates a singleton
container for the name. -/
theorem onEvent_identifier_assignment [DecidableEq Sig] (m : Registry Sig κ)
    (name : String) (s : Sig) (f : κ) :
    (∀ es : List (CallbackEntry κ), findContainer m name = some ⟨s, es⟩ →
       ∃ m', onEvent m name s f = some (m', es.length) ∧
         findContainer m' name = some ⟨s, es ++ [⟨es.length, f⟩]⟩) ∧
    (findContainer m name = none →
       ∃ m', onEvent m name s f = some (m', 0) ∧
         findContainer m' name = some ⟨s, [⟨0, f⟩]⟩) := by
  constructor
  · intro es h
    exact ⟨_, onEvent_present h f, findContainer_setContainer_self _ h⟩
  · intro h
    refine ⟨m ++ [(name, ⟨s, [⟨0, f⟩]⟩)], ?_, ?_⟩
    · simp [onEvent, h]
    · rw [findContainer_append_of_none h]
      simp [findContainer]

/-- Witness for C4: both the existing-container branch and the
fresh-name branch at concrete registries. -/
theorem onEvent_identifier_assignment_witness :
    (∃ m', onEvent [("e", (⟨true, [⟨0, 7⟩]⟩ : Container Bool Nat))] "e" true 9 =
        some (m', 1) ∧
      findContainer m' "e" = some ⟨true, [⟨0, 7⟩, ⟨1, 9⟩]⟩) ∧
    (∃ m', onEvent ([] : Registry Bool Nat) "e" true 9 = some (m', 0) ∧
      findContainer m' "e" = some ⟨true, [⟨0, 9⟩]⟩) :=
  ⟨((onEvent_identifier_assignment [("e", ⟨true, [⟨0, 7⟩]⟩)] "e" true 9).1 [⟨0, 7⟩] rfl),
   ((onEvent_identifier_assignment ([] : Registry Bool Nat) "e" true 9).2 rfl)⟩

/-- C5: unregistering on an unknown name, or with an identifier carried
by no current entry, leaves the registry exactly as it was. -/
theorem off_absent_noop [DecidableEq Sig] (m : Registry Sig κ) (name : String) (s : Sig)
    (idr : Nat) :
    (findContainer m name = none → off m name s idr = some m) ∧
    (∀ es : List (CallbackEntry κ), findContainer m name = some ⟨s, es⟩ →
       (∀ e ∈ es, ¬ e.id = idr) → off m name s idr = some m) := by
  constructor
  · intro h
    simp [off, h]
  · intro es h hnone
    have hfilter : es.filter (fun e => ¬ e.id = idr) = es := by
      rw [List.filter_eq_self]
      intro e he
      simpa using hnone e he
    rw [off_present h idr, hfilter, setContainer_self h]

/-- Witness for C5: unknown name on the empty registry, and an absent
identifier on a one-entry container. -/
theorem off_absent_noop_witness :
    off ([] : Registry Bool Nat) "n" true 3 = some [] ∧
    off [("n", (⟨true, [⟨0, 7⟩]⟩ : Container Bool Nat))] "n" true 5 =
      some [("n", ⟨true, [⟨0, 7⟩]⟩)] :=
  ⟨(off_absent_noop ([] : Registry Bool Nat) "n" true 3).1 rfl,
   (off_absent_noop [("n", ⟨true, [⟨0, 7⟩]⟩)] "n" true 5).2 [⟨0, 7⟩] rfl
     (by intro e he; simp at he; subst he; simp)⟩

/-- C6: emitting a name for which no container exists performs zero
invocations, reports no error, and leaves the registry unchanged. -/
theorem emit_unknown_name_noop [DecidableEq Sig] (run : κ → A → Except E Unit)
    (m : Registry Sig κ) (name : String) (s : Sig) (a : A)
    (h : findContainer m name = none) :
    emitEvent run m name s a = some (m, [], none) := by
  simp [emitEvent, h]

/-- Witness for C6 on a registry holding an unrelated name. -/
theorem emit_unknown_name_noop_witness :
    emitEvent (fun (_ : Nat) (_ : Nat) => (Except.ok () : Except Unit Unit))
      [("other", (⟨true, [⟨0, 7⟩]⟩ : Container Bool Nat))] "ghost" true 4 =
      some ([("other", ⟨true, [⟨0, 7⟩]⟩)], [], none) :=
  emit_unknown_name_noop _ [("other", ⟨true, [⟨0, 7⟩]⟩)] "ghost" true 4 rfl

/-- C3: after unregistering an identifier that is present in the
container of a name, a subsequent emission of that name invokes no
entry carrying that identifier, while every entry with a different
identifier is invoked, in its original relative order. -/
theorem off_then_emit_skips_removed [DecidableEq Sig] (run : κ → A → Except E Unit)
    (m m' : Registry Sig κ) (name : String) (s : Sig) (idr : Nat)
    (es : List (CallbackEntry κ)) (a : A)
    (hc : findContainer m name = some ⟨s, es⟩)
    (hpresent : ∃ e ∈ es, e.id = idr)
    (hoff : off m name s idr = some m')
    (hok : ∀ e ∈ es, ¬ e.id = idr → run e.func a = Except.ok ()) :
    emitEvent run m' name s a =
      some (m', (es.filter (fun e => ¬ e.id = idr)).map (fun e => (e, a)), none) ∧
    ∀ p ∈ (es.filter (fun e => ¬ e.id = idr)).map (fun e => (e, a)), ¬ p.1.id = idr := by
  rw [off_present hc idr] at hoff
  have hm' : m' = setContainer m name ⟨s, es.filter (fun e => ¬ e.id = idr)⟩ :=
    (Option.some.inj hoff).symm
  subst hm'
  have hfind := findContainer_setContainer_self
    (⟨s, es.filter (fun e => ¬ e.id = idr)⟩ : Container Sig κ) hc
  constructor
  · have hmem : ∀ e ∈ es.filter (fun e => ¬ e.id = idr), run e.func a = Except.ok () := by
      intro e he
      rw [List.mem_filter] at he
      exact hok e he.1 (by simpa using he.2)
    rw [emitEvent_present run hfind a, runCallbacks_all_ok hmem]
  · intro p hp
    simp only [List.mem_map] at hp
    obtain ⟨e, he, rfl⟩ := hp
    rw [List.mem_filter] at he
    simpa using he.2

/-- Witness for C3: removing identifier 0 from a two-entry container,
then emitting. -/
theorem off_then_emit_skips_removed_witness :
    emitEvent (fun (_ : Nat) (_ : Nat) => (Except.ok () : Except Unit Unit))
      [("n", (⟨true, ([⟨0, 20⟩, ⟨1, 21⟩] : List (CallbackEntry Nat)).filter
        (fun e => ¬ e.id = 0)⟩ : Container Bool Nat))] "n" true 5 =
      some ([("n", ⟨true, ([⟨0, 20⟩, ⟨1, 21⟩] : List (CallbackEntry Nat)).filter
        (fun e => ¬ e.id = 0)⟩)],
        (([⟨0, 20⟩, ⟨1, 21⟩] : List (CallbackEntry Nat)).filter
          (fun e => ¬ e.id = 0)).map (fun e => (e, 5)), none) ∧
    ∀ p ∈ (([⟨0, 20⟩, ⟨1, 21⟩] : List (CallbackEntry Nat)).filter
      (fun e => ¬ e.id = 0)).map (fun e => (e, (5 : Nat))), ¬ p.1.id = 0 :=
  off_then_emit_skips_removed _ [("n", ⟨true, [⟨0, 20⟩, ⟨1, 21⟩]⟩)] _ "n" true 0
    [⟨0, 20⟩, ⟨1, 21⟩] 5 rfl ⟨⟨0, 20⟩, by simp⟩ rfl (fun _ _ _ => rfl)

/-- C7: when the callbacks before position k succeed and the callback at
position k raises, emission invokes exactly the first k callbacks and
the raising one, skips the rest, and surfaces the raised error. -/
theorem emit_raising_callback_stops_and_propagates [DecidableEq Sig]
    (run : κ → A → Except E Unit) (m : Registry Sig κ) (name : String) (s : Sig)
    (a : A) (ex : E) (es₁ es₂ : List (CallbackEntry κ)) (e : CallbackEntry κ)
    (hc : findContainer m name = some ⟨s, es₁ ++ e :: es₂⟩)
    (h1 : ∀ e' ∈ es₁, run e'.func a = Except.ok ())
    (he : run e.func a = Except.error ex) :
    emitEvent run m name s a =
      some (m, es₁.map (fun e' => (e', a)) ++ [(e, a)], some ex) := by
  rw [emitEvent_present run hc a, runCallbacks_error h1 he]

/-- Witness for C7: the middle of three callbacks raises. -/
theorem emit_raising_callback_stops_and_propagates_witness :
    emitEvent (fun (f : Nat) (_ : Nat) =>
        if f = 99 then (Except.error 0 : Except Nat Unit) else Except.ok ())
      [("n", (⟨true, [⟨0, 1⟩, ⟨1, 99⟩, ⟨2, 3⟩]⟩ : Container Bool Nat))] "n" true 7 =
      some ([("n", ⟨true, [⟨0, 1⟩, ⟨1, 99⟩, ⟨2, 3⟩]⟩)],
        ([⟨0, 1⟩] : List (CallbackEntry Nat)).map (fun e' => (e', 7)) ++ [(⟨1, 99⟩, 7)],
        some 0) :=
  emit_raising_callback_stops_and_propagates _ _ "n" true 7 0 [⟨0, 1⟩] [⟨2, 3⟩] ⟨1, 99⟩
    rfl (by intro e' he'; simp only [List.mem_singleton] at he'; subst he'; rfl) rfl

/-- C8: for distinct names, registering under the first leaves the
container of the second untouched, and emitting the first returns the
registry unchanged and invokes only entries stored under the first,
each receiving the emitted arguments. -/
theorem distinct_names_noninterference [DecidableEq Sig] (run : κ → A → Except E Unit)
    (m : Registry Sig κ) (na nb : String) (s : Sig) (f : κ) (arg : A)
    (hab : ¬ na = nb) :
    (∀ m' idr, onEvent m na s f = some (m', idr) →
       findContainer m' nb = findContainer m nb) ∧
    (∀ es : List (CallbackEntry κ), findContainer m na = some ⟨s, es⟩ →
       ∀ r tr err, emitEvent run m na s arg = some (r, tr, err) →
         r = m ∧ ∀ p ∈ tr, p.1 ∈ es ∧ p.2 = arg) := by
  constructor
  · intro m' idr h
    cases hfind : findContainer m na with
    | some c =>
        simp only [onEvent, hfind] at h
        by_cases hs : c.sig = s
        · rw [if_pos hs] at h
          have hpair := Option.some.inj h
          have hm' : m' =
              setContainer m na ⟨c.sig, c.functions ++ [⟨c.functions.length, f⟩]⟩ := by
            have := congrArg Prod.fst hpair
            exact this.symm
          rw [hm', findContainer_setContainer_ne _ hab]
        · rw [if_neg hs] at h
          exact absurd h (by simp)
    | none =>
        simp only [onEvent, hfind] at h
        have hpair := Option.some.inj h
        have hm' : m' = m ++ [(na, ⟨s, [⟨0, f⟩]⟩)] := by
          have := congrArg Prod.fst hpair
          exact this.symm
        rw [hm', findContainer_append_singleton_ne _ hab]
  · intro es hes r tr err h
    rw [emitEvent_present run hes arg] at h
    have h2 := Option.some.inj h
    simp only [Prod.mk.injEq] at h2
    obtain ⟨hr, hX⟩ := h2
    refine ⟨hr.symm, ?_⟩
    intro p hp
    have hp' : p ∈ (runCallbacks run es arg).1 := by
      rw [hX]
      exact hp
    exact runCallbacks_mem p hp'

/-- Witness for C8: registry holding the names a and b with different
signature tags; register under a, emit a. -/
theorem distinct_names_noninterference_witness :
    (findContainer
        [("a", (⟨true, [⟨0, 1⟩, ⟨1, 3⟩]⟩ : Container Bool Nat)),
         ("b", ⟨false, [⟨0, 2⟩]⟩)] "b" =
      findContainer
        [("a", (⟨true, [⟨0, 1⟩]⟩ : Container Bool Nat)), ("b", ⟨false, [⟨0, 2⟩]⟩)] "b") ∧
    ([("a", (⟨true, [⟨0, 1⟩]⟩ : Container Bool Nat)), ("b", ⟨false, [⟨0, 2⟩]⟩)] =
        [("a", (⟨true, [⟨0, 1⟩]⟩ : Container Bool Nat)), ("b", ⟨false, [⟨0, 2⟩]⟩)] ∧
      ∀ p ∈ [((⟨0, 1⟩ : CallbackEntry Nat), (7 : Nat))],
        p.1 ∈ [(⟨0, 1⟩ : CallbackEntry Nat)] ∧ p.2 = 7) :=
  ⟨(distinct_names_noninterference
      (fun (_ : Nat) (_ : Nat) => (Except.ok () : Except Unit Unit))
      [("a", ⟨true, [⟨0, 1⟩]⟩), ("b", ⟨false, [⟨0, 2⟩]⟩)] "a" "b" true 3 7
      (by decide)).1
      [("a", ⟨true, [⟨0, 1⟩, ⟨1, 3⟩]⟩), ("b", ⟨false, [⟨0, 2⟩]⟩)] 1 rfl,
   (distinct_names_noninterference
      (fun (_ : Nat) (_ : Nat) => (Except.ok () : Except Unit Unit))
      [("a", ⟨true, [⟨0, 1⟩]⟩), ("b", ⟨false, [⟨0, 2⟩]⟩)] "a" "b" true 3 7
      (by decide)).2
      [⟨0, 1⟩] rfl
      [("a", ⟨true, [⟨0, 1⟩]⟩), ("b", ⟨false, [⟨0, 2⟩]⟩)] [(⟨0, 1⟩, 7)] none rfl⟩

/-- C10: unregistering an identifier removes every entry carrying it,
keeping the remaining entries and the map entry for the name itself,
even when the surviving entry list is empty. -/
theorem off_removes_all_matching_keeps_entry [DecidableEq Sig] (m : Registry Sig κ)
    (name : String) (s : Sig) (idr : Nat) (es : List (CallbackEntry κ))
    (hc : findContainer m name = some ⟨s, es⟩) :
    ∃ m', off m name s idr = some m' ∧
      findContainer m' name = some ⟨s, es.filter (fun e => ¬ e.id = idr)⟩ ∧
      ∀ e ∈ es.filter (fun e => ¬ e.id = idr), ¬ e.id = idr := by
  refine ⟨_, off_present hc idr, findContainer_setContainer_self _ hc, ?_⟩
  intro e he
  rw [List.mem_filter] at he
  simpa using he.2

/-- Witness for C10: a container with two entries carrying identifier 1;
unregistering 1 removes both and keeps the name in the map. -/
theorem off_removes_all_matching_keeps_entry_witness :
    ∃ m', off [("n", (⟨true, [⟨1, 11⟩, ⟨1, 12⟩]⟩ : Container Bool Nat))] "n" true 1 =
        some m' ∧
      findContainer m' "n" =
        some ⟨true, ([⟨1, 11⟩, ⟨1, 12⟩] : List (CallbackEntry Nat)).filter
          (fun e => ¬ e.id = 1)⟩ ∧
      ∀ e ∈ ([⟨1, 11⟩, ⟨1, 12⟩] : List (CallbackEntry Nat)).filter
        (fun e => ¬ e.id = 1), ¬ e.id = 1 :=
  off_removes_all_matching_keeps_entry [("n", ⟨true, [⟨1, 11⟩, ⟨1, 12⟩]⟩)] "n" true 1
    [⟨1, 11⟩, ⟨1, 12⟩] rfl

end Claims

end EventManager
